import Mathlib

/-!
# Verification of the twixelwall-bot core (src/main.rs)

Shallow embedding of the command parser (`Command::try_from`) and the
canvas-update loop body of `main`, together with proofs of the spec's
testable properties.

Conventions of the embedding:
* A chat line is a `List Char`; `splitOnSpace` mirrors Rust's
  `str::split(' ')` (which yields empty tokens for consecutive, leading or
  trailing spaces, and `[""]` for the empty string).
* `parseU32` mirrors `u32::from_str` / `from_str_radix(_, 10)`: the token
  must be non-empty, may start with one optional plus sign followed by at
  least one digit, all remaining characters must be decimal digits, and the
  accumulated value must stay below 2^32 (Rust's checked-arithmetic
  overflow test); any violation is a parse error.
* Machine integers are modelled as `Nat` with explicit bounds / `% 256`
  where the Rust code casts (`as u8` truncates modulo 256).
-/

/-- The parse-failure taxonomy of the spec.  In the source the three
errors are the strings "error parsing" (`Malformed`, from the failed
`collect` over `v.parse::<u32>()`), "too many args" (`ArityMismatch`, from
the `(5..7).contains` length test) and "invalid r g b"
(`ColorOutOfRange`). -/
inductive ParseError where
  | Malformed : ParseError
  | ArityMismatch : ParseError
  | ColorOutOfRange : ParseError
deriving DecidableEq, Repr

/-- The validated pixel command (`struct Command` in the source):
`x, y : u32` and `r, g, b, a : u8`, modelled as `Nat`. -/
structure Command where
  x : Nat
  y : Nat
  r : Nat
  g : Nat
  b : Nat
  a : Nat
deriving DecidableEq, Repr

/-- Rust's `str::split(' ')` on a list of characters: split at every
single space, keeping empty tokens; the empty string yields `[[]]`. -/
def splitOnSpace : List Char → List (List Char)
  | [] => [[]]
  | c :: rest =>
    if c = ' ' then [] :: splitOnSpace rest
    else
      match splitOnSpace rest with
      | t :: ts => (c :: t) :: ts
      | [] => [[c]]

/-- The digit-accumulation loop of `u32::from_str_radix(_, 10)`: each
character must be a decimal digit and the accumulator must stay below
2^32 (the `checked_mul`/`checked_add` overflow test collapses to a single
bound because the digit is < 10). -/
def parseU32Digits : List Char → Nat → Option Nat
  | [], acc => some acc
  | c :: cs, acc =>
    if c.isDigit then
      let acc' := acc * 10 + (c.toNat - 48)
      if acc' < 2 ^ 32 then parseU32Digits cs acc' else none
    else none

/-- `u32::from_str`: empty input fails; an optional leading plus sign is
allowed (a minus sign is rejected for unsigned types, and falls into the
all-digits branch below, which fails on it); the rest must be one or more
digits with the value below 2^32. -/
def parseU32 (t : List Char) : Option Nat :=
  match t with
  | [] => none
  | c :: rest =>
    if c = '+' then (if rest = [] then none else parseU32Digits rest 0)
    else parseU32Digits t 0

/-- The `collect::<Result<Vec<_>, _>>()` over `v.parse::<u32>()`: succeeds
with the list of values iff every token parses, short-circuiting on the
first failure. -/
def collectParse : List (List Char) → Option (List Nat)
  | [] => some []
  | t :: ts =>
    match parseU32 t with
    | none => none
    | some n =>
      match collectParse ts with
      | none => none
      | some ns => some (n :: ns)

/-- `Command::try_from` (src/main.rs lines 66-87): split the line on the
space character, parse every token as `u32` (failure: `Malformed`), require
5 or 6 tokens (`!(5..7).contains(&v.len())` failure: `ArityMismatch`),
require `v[2] ≤ 255 ∧ v[3] ≤ 255 ∧ v[4] ≤ 255` (failure:
`ColorOutOfRange`).  Note that the source checks only indices 2, 3, 4: a
sixth token (alpha) is not range-checked and is truncated by `as u8`,
modelled by `% 256`; `r, g, b` are already ≤ 255 so their `as u8` casts
are the identity. -/
def tryFrom (line : List Char) : Except ParseError Command :=
  match collectParse (splitOnSpace line) with
  | none => Except.error ParseError.Malformed
  | some v =>
    if ¬ (5 ≤ v.length ∧ v.length < 7) then Except.error ParseError.ArityMismatch
    else if 255 < v.getD 2 0 ∨ 255 < v.getD 3 0 ∨ 255 < v.getD 4 0 then
      Except.error ParseError.ColorOutOfRange
    else
      Except.ok
        { x := v.getD 0 0
          y := v.getD 1 0
          r := v.getD 2 0
          g := v.getD 3 0
          b := v.getD 4 0
          a := if v.length = 6 then v.getD 5 0 % 256 else 255 }

example : tryFrom ("3 4 255 0 0".toList) =
    Except.ok { x := 3, y := 4, r := 255, g := 0, b := 0, a := 255 } := by rfl
example : tryFrom ("3 4 255 0 0 128".toList) =
    Except.ok { x := 3, y := 4, r := 255, g := 0, b := 0, a := 128 } := by rfl
example : tryFrom ("3 4 999 0 0".toList) =
    Except.error ParseError.ColorOutOfRange := by rfl
example : tryFrom ("0 0 0 0 0 256".toList) =
    Except.ok { x := 0, y := 0, r := 0, g := 0, b := 0, a := 0 } := by rfl
example : tryFrom ("1 2 3".toList) = Except.error ParseError.ArityMismatch := by rfl
example : tryFrom ("1 2 3 x 5".toList) = Except.error ParseError.Malformed := by rfl
example : tryFrom ("".toList) = Except.error ParseError.Malformed := by rfl
example : tryFrom ("+5 1 2 3 4".toList) =
    Except.ok { x := 5, y := 1, r := 2, g := 3, b := 4, a := 255 } := by rfl
example : tryFrom ("4294967296 0 0 0 0".toList) =
    Except.error ParseError.Malformed := by rfl
example : tryFrom ("4294967295 0 0 0 0".toList) =
    Except.ok { x := 4294967295, y := 0, r := 0, g := 0, b := 0, a := 255 } := by rfl

/-- One RGBA pixel, four 8-bit channels modelled as `Nat`. -/
structure Rgba where
  r : Nat
  g : Nat
  b : Nat
  a : Nat
deriving DecidableEq, Repr

/-- `NumCast::from::<u8>(max_t * out)` of the blend: scale a [0,1]-range
value back to the 0..255 channel range and truncate toward zero. -/
def quantize (q : ℚ) : Nat := (Int.floor (255 * q)).toNat

/-- Modelled from the spec: the alpha blend is performed by the external
`image` crate (`Pixel::blend` on `Rgba<u8>`, called at src/main.rs lines
173-174); the crate's source is not part of this repository.  Following
the spec's description — standard "over" compositing, `new pixel = src
combined with dst weighted by src.a` — the blend is computed here over
exact rationals on the crate's [0,1] channel scale: the final alpha is
`bgA + fgA - bgA·fgA`; a zero final alpha leaves the destination pixel
unchanged; otherwise each colour channel is the premultiplied sum
`fg·fgA + bg·bgA·(1 - fgA)` divided by the final alpha, quantized back to
0..255. -/
def blend (dst src : Rgba) : Rgba :=
  let bgA : ℚ := (dst.a : ℚ) / 255
  let fgA : ℚ := (src.a : ℚ) / 255
  let alphaFinal : ℚ := bgA + fgA - bgA * fgA
  if alphaFinal = 0 then dst
  else
    let ch : Nat → Nat → Nat := fun bg fg =>
      quantize (((fg : ℚ) / 255 * fgA + (bg : ℚ) / 255 * bgA * (1 - fgA)) / alphaFinal)
    { r := ch dst.r src.r
      g := ch dst.g src.g
      b := ch dst.b src.b
      a := quantize alphaFinal }

/-- The in-memory RGBA buffer produced by `to_rgba8()`: a `width × height`
grid of pixels, the grid itself modelled as a function of the
coordinates. -/
structure Img where
  width : Nat
  height : Nat
  pix : Nat → Nat → Rgba

/-- `img.get_pixel_mut(command.x, command.y).blend(&Rgba([r, g, b, a]))`
(src/main.rs lines 173-174): blend the command's colour over the pixel at
`(x, y)`, leaving every other pixel untouched. -/
def applyCommand (img : Img) (cmd : Command) : Img :=
  { img with
    pix := fun i j =>
      if i = cmd.x ∧ j = cmd.y then
        blend (img.pix cmd.x cmd.y) { r := cmd.r, g := cmd.g, b := cmd.b, a := cmd.a }
      else img.pix i j }

/-- The update-failure taxonomy of the spec. -/
inductive UpdateError where
  | LoadFailed : UpdateError
  | EncodeFailed : UpdateError
  | PublishFailed : UpdateError
deriving DecidableEq, Repr

/-- What one iteration of the message loop does to the process: `next`
means the loop continues to the next message (carrying the spec's
diagnostic classification of a non-fatal failure, if any); `panic` means
the loop body panicked (`.unwrap()` on a failed operation), which kills
the spawned task and — through `join_handle.await.unwrap()` at the end of
`main` — terminates the process. -/
inductive Outcome where
  | next : Option UpdateError → Outcome
  | panic : Outcome
deriving DecidableEq, Repr

/-- Pointwise update of the modelled filesystem (a map from paths to
optional file contents of type `α`, `none` meaning the file is absent). -/
def fsUpdate {α : Type} (fs : String → Option α) (p : String) (v : Option α) :
    String → Option α :=
  fun q => if q = p then v else fs q

/-- The body of the `ServerMessage::Privmsg` arm after a successful parse
(src/main.rs lines 165-182), parameterised by the opaque image codec
(`decode` for `ImageReader::decode` + `to_rgba8`, `encode` for the bytes
`img.save` writes) and by oracles for the fallible filesystem operations:
`saveOk` tells whether `img.save(&tmpfile)` succeeds, `renameOk` whether
`fs::rename` succeeds, and `tmpJunk` is whatever content a failed save
leaves at the temp path.  Returns the outcome for the loop together with
the chronological list of filesystem states, the initial state first.

Step by step:
* bounds check `command.x >= width || command.y >= height` → `continue`
  (silent, no filesystem access);
* `ImageReader::open(..).unwrap().decode().unwrap()`: a missing file or a
  failed decode panics (`Outcome.panic`);
* the blend mutates only the in-memory buffer;
* `img.save(&tmpfile)`: on failure `eprintln!` + `continue` — the spec's
  `EncodeFailed` — with only the temp path possibly written;
* `fs::rename(tmpfile, &img_filepath).unwrap()`: on success the temp
  file's content moves onto the canvas path (the atomic publish); on
  failure the unwrap panics.
`tempdir()` is assumed to succeed and to yield a fresh `tmpPath` distinct
from the canvas path (it is a fresh temporary directory). -/
def updateCycle {α : Type} (decode : α → Option Img) (encode : Img → α)
    (canvasPath tmpPath : String) (width height : Nat)
    (saveOk renameOk : Bool) (tmpJunk : Option α)
    (cmd : Command) (fs : String → Option α) :
    Outcome × List (String → Option α) :=
  if width ≤ cmd.x ∨ height ≤ cmd.y then (Outcome.next none, [fs])
  else
    match (fs canvasPath).bind decode with
    | none => (Outcome.panic, [fs])
    | some img =>
      let img2 := applyCommand img cmd
      if saveOk then
        let fs1 := fsUpdate fs tmpPath (some (encode img2))
        if renameOk then
          let fs2 := fsUpdate (fsUpdate fs1 canvasPath (fs1 tmpPath)) tmpPath none
          (Outcome.next none, [fs, fs1, fs2])
        else (Outcome.panic, [fs, fs1])
      else (Outcome.next (some UpdateError.EncodeFailed), [fs, fsUpdate fs tmpPath tmpJunk])

/-- One full iteration of the message loop for a chat line (src/main.rs
lines 158-183): parse the line with `Command::try_from`; a parse error is
`continue` with no filesystem access; a parsed command runs one update
cycle. -/
def processLine {α : Type} (decode : α → Option Img) (encode : Img → α)
    (canvasPath tmpPath : String) (width height : Nat)
    (saveOk renameOk : Bool) (tmpJunk : Option α)
    (line : List Char) (fs : String → Option α) :
    Outcome × List (String → Option α) :=
  match tryFrom line with
  | Except.error _ => (Outcome.next none, [fs])
  | Except.ok cmd =>
    updateCycle decode encode canvasPath tmpPath width height saveOk renameOk tmpJunk cmd fs

/-- Big-endian decimal digit list of `n`; the explicit fuel (any amount
above `n` is enough, since the value shrinks every step) keeps the
recursion structural. -/
def natDigits : Nat → Nat → List Nat
  | 0, _ => []
  | fuel + 1, n => if n < 10 then [n] else natDigits fuel (n / 10) ++ [n % 10]

/-- The character of one decimal digit. -/
def digitToChar (d : Nat) : Char := Char.ofNat (48 + d)

/-- The decimal rendering of a natural number, as a sender would type it. -/
def renderNat (n : Nat) : List Char := (natDigits (n + 1) n).map digitToChar

/-- Join tokens with single spaces between them. -/
def joinSpace : List (List Char) → List Char
  | [] => []
  | [t] => t
  | t :: t2 :: ts => t ++ ' ' :: joinSpace (t2 :: ts)

theorem splitOnSpace_ne_nil (l : List Char) : splitOnSpace l ≠ [] := by
  cases l with
  | nil => simp [splitOnSpace]
  | cons c rest =>
    simp only [splitOnSpace]
    split
    · simp
    · split <;> simp

theorem splitOnSpace_no_space (t : List Char) (h : ' ' ∉ t) :
    splitOnSpace t = [t] := by
  induction t with
  | nil => rfl
  | cons c rest ih =>
    have hc : c ≠ ' ' := fun hc => h (hc ▸ List.mem_cons_self c rest)
    have hr : ' ' ∉ rest := fun hm => h (List.mem_cons_of_mem c hm)
    simp only [splitOnSpace, if_neg hc, ih hr]

theorem splitOnSpace_append_space (t r : List Char) (h : ' ' ∉ t) :
    splitOnSpace (t ++ ' ' :: r) = t :: splitOnSpace r := by
  induction t with
  | nil => simp [splitOnSpace]
  | cons c rest ih =>
    have hc : c ≠ ' ' := fun hc => h (hc ▸ List.mem_cons_self c rest)
    have hr : ' ' ∉ rest := fun hm => h (List.mem_cons_of_mem c hm)
    simp only [List.cons_append, splitOnSpace, if_neg hc, List.append_eq, ih hr]

theorem splitOnSpace_joinSpace (ts : List (List Char)) (h : ts ≠ [])
    (hs : ∀ t ∈ ts, ' ' ∉ t) : splitOnSpace (joinSpace ts) = ts := by
  induction ts with
  | nil => exact absurd rfl h
  | cons t rest ih =>
    cases rest with
    | nil =>
      simp only [joinSpace]
      exact splitOnSpace_no_space t (hs t (List.mem_cons_self t []))
    | cons t2 rest2 =>
      have h1 : ' ' ∉ t := hs t (List.mem_cons_self t _)
      have h2 : ∀ u ∈ t2 :: rest2, ' ' ∉ u := fun u hu => hs u (List.mem_cons_of_mem t hu)
      simp only [joinSpace, splitOnSpace_append_space t _ h1,
        ih (by simp) h2]

theorem collectParse_none_of_bad_token (ts : List (List Char))
    (h : ∃ t ∈ ts, parseU32 t = none) : collectParse ts = none := by
  induction ts with
  | nil => simp at h
  | cons t rest ih =>
    obtain ⟨u, hu, hpu⟩ := h
    rcases List.mem_cons.mp hu with h1 | h1
    · subst h1
      simp only [collectParse, hpu]
    · simp only [collectParse]
      cases hp : parseU32 t with
      | none => rfl
      | some n => rw [ih ⟨u, h1, hpu⟩]

theorem collectParse_length (ts : List (List Char)) (vs : List Nat)
    (h : collectParse ts = some vs) : vs.length = ts.length := by
  induction ts generalizing vs with
  | nil => simp only [collectParse, Option.some_inj] at h; subst h; rfl
  | cons t rest ih =>
    simp only [collectParse] at h
    cases hp : parseU32 t with
    | none => rw [hp] at h; exact absurd h (by simp)
    | some n =>
      rw [hp] at h
      cases hc : collectParse rest with
      | none => rw [hc] at h; exact absurd h (by simp)
      | some ns =>
        rw [hc] at h
        simp only [Option.some_inj] at h
        subst h
        simp [ih ns hc]

theorem digitToChar_spec (d : Nat) (h : d < 10) :
    (digitToChar d).isDigit = true ∧ (digitToChar d).toNat - 48 = d ∧
    digitToChar d ≠ ' ' ∧ digitToChar d ≠ '+' := by
  interval_cases d <;> exact ⟨by decide, by decide, by decide, by decide⟩

theorem natDigits_all_lt (fuel n : Nat) (h : n < fuel) :
    ∀ d ∈ natDigits fuel n, d < 10 := by
  induction fuel generalizing n with
  | zero => omega
  | succ f ih =>
    intro d hd
    simp only [natDigits] at hd
    by_cases h10 : n < 10
    · rw [if_pos h10] at hd
      simp only [List.mem_singleton] at hd
      omega
    · rw [if_neg h10] at hd
      rcases List.mem_append.mp hd with h1 | h1
      · exact ih (n / 10) (by omega) d h1
      · simp only [List.mem_singleton] at h1
        subst h1
        exact Nat.mod_lt n (by omega)

theorem natDigits_ne_nil (fuel n : Nat) (h : n < fuel) :
    natDigits fuel n ≠ [] := by
  cases fuel with
  | zero => omega
  | succ f =>
    simp only [natDigits]
    split
    · simp
    · simp

theorem natDigits_foldl (fuel n : Nat) (h : n < fuel) :
    (natDigits fuel n).foldl (fun a d => a * 10 + d) 0 = n := by
  induction fuel generalizing n with
  | zero => omega
  | succ f ih =>
    simp only [natDigits]
    by_cases h10 : n < 10
    · rw [if_pos h10]
      simp
    · rw [if_neg h10]
      rw [List.foldl_append]
      rw [ih (n / 10) (by omega)]
      simp only [List.foldl_cons, List.foldl_nil]
      omega

theorem foldl_digits_le (ds : List Nat) (a : Nat) :
    a ≤ ds.foldl (fun a d => a * 10 + d) a := by
  induction ds generalizing a with
  | nil => exact Nat.le_refl a
  | cons d tl ih =>
    simp only [List.foldl_cons]
    exact Nat.le_trans (by omega) (ih (a * 10 + d))

theorem parseU32Digits_of_digits (ds : List Nat) (acc : Nat)
    (h : ∀ d ∈ ds, d < 10)
    (hb : ds.foldl (fun a d => a * 10 + d) acc < 2 ^ 32) :
    parseU32Digits (ds.map digitToChar) acc =
      some (ds.foldl (fun a d => a * 10 + d) acc) := by
  induction ds generalizing acc with
  | nil => rfl
  | cons d tl ih =>
    have hd : d < 10 := h d (List.mem_cons_self d tl)
    obtain ⟨hdig, hval, _, _⟩ := digitToChar_spec d hd
    simp only [List.map_cons, parseU32Digits, hdig, if_true, hval]
    simp only [List.foldl_cons] at hb
    have hstep : acc * 10 + d < 2 ^ 32 :=
      Nat.lt_of_le_of_lt (foldl_digits_le tl (acc * 10 + d)) hb
    rw [if_pos hstep]
    exact ih (acc * 10 + d) (fun e he => h e (List.mem_cons_of_mem d he)) hb

theorem renderNat_all_digit (n : Nat) :
    ∀ c ∈ renderNat n, c.isDigit = true := by
  intro c hc
  simp only [renderNat, List.mem_map] at hc
  obtain ⟨d, hd, hdc⟩ := hc
  have := natDigits_all_lt (n + 1) n (Nat.lt_succ_self n) d hd
  exact hdc ▸ (digitToChar_spec d this).1

theorem space_not_mem_renderNat (n : Nat) : ' ' ∉ renderNat n := by
  intro h
  have := renderNat_all_digit n ' ' h
  simp at this

theorem parseU32_renderNat (n : Nat) (h : n < 2 ^ 32) :
    parseU32 (renderNat n) = some n := by
  have hne : natDigits (n + 1) n ≠ [] := natDigits_ne_nil (n + 1) n (Nat.lt_succ_self n)
  have hlt : ∀ d ∈ natDigits (n + 1) n, d < 10 :=
    natDigits_all_lt (n + 1) n (Nat.lt_succ_self n)
  have hfold : (natDigits (n + 1) n).foldl (fun a d => a * 10 + d) 0 = n :=
    natDigits_foldl (n + 1) n (Nat.lt_succ_self n)
  cases hds : natDigits (n + 1) n with
  | nil => exact absurd hds hne
  | cons d tl =>
    have hd : d < 10 := hlt d (hds ▸ List.mem_cons_self d tl)
    obtain ⟨_, _, _, hplus⟩ := digitToChar_spec d hd
    simp only [renderNat, hds, List.map_cons, parseU32, if_neg hplus]
    have := parseU32Digits_of_digits (d :: tl) 0 (hds ▸ hlt) (by rw [← hds, hfold]; exact h)
    simp only [List.map_cons] at this
    rw [this, ← hds, hfold]

theorem collectParse_renderNat (vals : List Nat) (h : ∀ v ∈ vals, v < 2 ^ 32) :
    collectParse (vals.map renderNat) = some vals := by
  induction vals with
  | nil => rfl
  | cons v tl ih =>
    simp only [List.map_cons, collectParse,
      parseU32_renderNat v (h v (List.mem_cons_self v tl)),
      ih (fun u hu => h u (List.mem_cons_of_mem v hu))]
theorem quantize_div_255 (n : Nat) : quantize ((n : ℚ) / 255) = n := by
  have h : (255 : ℚ) * ((n : ℚ) / 255) = (n : ℚ) := by field_simp
  simp [quantize, h]

theorem blend_alpha255 (dst src : Rgba) (h : src.a = 255) :
    blend dst src = { r := src.r, g := src.g, b := src.b, a := 255 } := by
  obtain ⟨dr, dg, db, da⟩ := dst
  obtain ⟨sr, sg, sb, sa⟩ := src
  simp only at h
  subst h
  have h1 : ((255 : Nat) : ℚ) / 255 = 1 := by norm_num
  have hcond : ((da : ℚ) / 255 + ((255 : Nat) : ℚ) / 255 -
      (da : ℚ) / 255 * (((255 : Nat) : ℚ) / 255)) = 1 := by
    rw [h1]; ring
  simp only [blend, hcond, one_ne_zero, if_false]
  have hch : ∀ bg fg : Nat,
      quantize (((fg : ℚ) / 255 * (((255 : Nat) : ℚ) / 255) +
        (bg : ℚ) / 255 * ((da : ℚ) / 255) * (1 - ((255 : Nat) : ℚ) / 255)) / 1) = fg := by
    intro bg fg
    rw [h1]
    have : ((fg : ℚ) / 255 * 1 + (bg : ℚ) / 255 * ((da : ℚ) / 255) * (1 - 1)) / 1
        = (fg : ℚ) / 255 := by ring
    rw [this, quantize_div_255]
  simp only [hch]
  have : quantize 1 = 255 := by simp [quantize]
  simp [this]

theorem blend_alpha0 (dst src : Rgba) (h : src.a = 0) : blend dst src = dst := by
  obtain ⟨dr, dg, db, da⟩ := dst
  obtain ⟨sr, sg, sb, sa⟩ := src
  simp only at h
  subst h
  by_cases hda : da = 0
  · subst hda
    simp [blend]
  · have hda' : ((da : ℚ)) ≠ 0 := Nat.cast_ne_zero.mpr hda
    have hcond : ((da : ℚ) / 255 + ((0 : Nat) : ℚ) / 255 -
        (da : ℚ) / 255 * (((0 : Nat) : ℚ) / 255)) = (da : ℚ) / 255 := by
      push_cast; ring
    have hne : ((da : ℚ) / 255) ≠ 0 := by
      intro hc
      exact hda' (by field_simp at hc; exact_mod_cast hc)
    simp only [blend, hcond, hne, if_false]
    have hch : ∀ bg fg : Nat,
        quantize (((fg : ℚ) / 255 * (((0 : Nat) : ℚ) / 255) +
          (bg : ℚ) / 255 * ((da : ℚ) / 255) * (1 - ((0 : Nat) : ℚ) / 255)) / ((da : ℚ) / 255)) = bg := by
      intro bg fg
      have : (((fg : ℚ) / 255 * (((0 : Nat) : ℚ) / 255) +
          (bg : ℚ) / 255 * ((da : ℚ) / 255) * (1 - ((0 : Nat) : ℚ) / 255)) / ((da : ℚ) / 255))
          = (bg : ℚ) / 255 := by
        push_cast
        field_simp
        ring
      rw [this, quantize_div_255]
    simp only [hch]
    simp [quantize_div_255 da]

theorem parseU32Digits_none_of_nondigit (cs : List Char) (c : Char)
    (hc : c ∈ cs) (hd : c.isDigit = false) :
    ∀ acc, parseU32Digits cs acc = none := by
  induction cs with
  | nil => simp at hc
  | cons e tl ih =>
    intro acc
    rcases List.mem_cons.mp hc with h1 | h1
    · subst h1
      simp only [parseU32Digits, hd, Bool.false_eq_true, if_false]
    · simp only [parseU32Digits]
      split
      · split
        · exact ih h1 _
        · rfl
      · rfl

theorem parseU32_nil_eq_none : parseU32 [] = none := rfl

theorem parseU32_none_of_tab (t : List Char) (h : '\t' ∈ t) :
    parseU32 t = none := by
  have htd : ('\t').isDigit = false := by decide
  cases t with
  | nil => rfl
  | cons c rest =>
    simp only [parseU32]
    by_cases hp : c = '+'
    · rw [if_pos hp]
      have hr : '\t' ∈ rest := by
        rcases List.mem_cons.mp h with h1 | h1
        · exact absurd (h1 ▸ hp) (by decide)
        · exact h1
      cases rest with
      | nil => simp at hr
      | cons e tl =>
        rw [if_neg (by simp)]
        exact parseU32Digits_none_of_nondigit _ '\t' hr htd 0
    · rw [if_neg hp]
      exact parseU32Digits_none_of_nondigit _ '\t' h htd 0

theorem mem_head_splitOnSpace (c : Char) (rest : List Char) (hc : c ≠ ' ') :
    ∃ t ts, splitOnSpace (c :: rest) = (c :: t) :: ts ∧ splitOnSpace rest = t :: ts := by
  simp only [splitOnSpace, if_neg hc]
  cases hs : splitOnSpace rest with
  | nil => exact absurd hs (splitOnSpace_ne_nil rest)
  | cons t ts => exact ⟨t, ts, rfl, rfl⟩

theorem tab_in_some_token (l : List Char) (h : '\t' ∈ l) :
    ∃ t ∈ splitOnSpace l, '\t' ∈ t := by
  induction l with
  | nil => simp at h
  | cons c rest ih =>
    by_cases hc : c = ' '
    · subst hc
      have hr : '\t' ∈ rest := by
        rcases List.mem_cons.mp h with h1 | h1
        · exact absurd h1.symm (by decide)
        · exact h1
      obtain ⟨t, ht, htt⟩ := ih hr
      exact ⟨t, by simp [splitOnSpace, ht], htt⟩
    · obtain ⟨t, ts, heq, hrest⟩ := mem_head_splitOnSpace c rest hc
      rcases List.mem_cons.mp h with h1 | h1
      · exact ⟨c :: t, by simp [heq], by simp [← h1]⟩
      · obtain ⟨u, hu, huu⟩ := ih h1
        rw [hrest] at hu
        rcases List.mem_cons.mp hu with h2 | h2
        · exact ⟨c :: t, by simp [heq], by subst h2; exact List.mem_cons_of_mem c huu⟩
        · exact ⟨u, by simp [heq, h2], huu⟩

theorem nil_mem_tail_splitOnSpace_double (l1 l2 : List Char) :
    [] ∈ (splitOnSpace (l1 ++ ' ' :: ' ' :: l2)).tail := by
  induction l1 with
  | nil =>
    simp only [List.nil_append, splitOnSpace, if_pos rfl]
    simp
  | cons c rest ih =>
    by_cases hc : c = ' '
    · subst hc
      simp only [List.cons_append, splitOnSpace, if_pos rfl, List.tail_cons]
      exact List.mem_of_mem_tail ih
    · obtain ⟨t, ts, heq, hrest⟩ := mem_head_splitOnSpace c (rest ++ ' ' :: ' ' :: l2) hc
      rw [List.cons_append] at *
      rw [heq]
      simp only [List.tail_cons]
      have := ih
      rw [hrest] at this
      simpa using this

theorem nil_mem_splitOnSpace_leading (l : List Char) :
    [] ∈ splitOnSpace (' ' :: l) := by
  simp [splitOnSpace]

theorem nil_mem_tail_splitOnSpace_trailing (l : List Char) :
    [] ∈ (splitOnSpace (l ++ [' '])).tail := by
  induction l with
  | nil => simp [splitOnSpace]
  | cons c rest ih =>
    by_cases hc : c = ' '
    · subst hc
      simp only [List.cons_append, splitOnSpace, if_pos rfl, List.tail_cons]
      exact List.mem_of_mem_tail ih
    · obtain ⟨t, ts, heq, hrest⟩ := mem_head_splitOnSpace c (rest ++ [' ']) hc
      rw [List.cons_append, heq]
      simp only [List.tail_cons]
      have := ih
      rw [hrest] at this
      simpa using this

theorem tryFrom_malformed_of_empty_token (line : List Char)
    (h : [] ∈ splitOnSpace line) : tryFrom line = Except.error ParseError.Malformed := by
  unfold tryFrom
  rw [collectParse_none_of_bad_token _ ⟨[], h, parseU32_nil_eq_none⟩]

theorem tryFrom_malformed_of_tab (line : List Char)
    (h : '\t' ∈ line) : tryFrom line = Except.error ParseError.Malformed := by
  obtain ⟨t, ht, htt⟩ := tab_in_some_token line h
  unfold tryFrom
  rw [collectParse_none_of_bad_token _ ⟨t, ht, parseU32_none_of_tab t htt⟩]

/-- C1 (counterexample): the line "0 0 0 0 0 256" tokenizes into 6 numeric
tokens and its alpha token exceeds 255, yet parsing does not return
`ColorOutOfRange`: it succeeds, constructing a `PixelCommand` with the
alpha truncated to `256 % 256 = 0` (the source checks only `v[2]`, `v[3]`,
`v[4]` and casts `v[5] as u8`). -/
theorem c1_alpha_unchecked_counterexample :
    tryFrom ("0 0 0 0 0 256".toList)
      = Except.ok { x := 0, y := 0, r := 0, g := 0, b := 0, a := 0 }
    ∧ tryFrom ("0 0 0 0 0 256".toList) ≠ Except.error ParseError.ColorOutOfRange :=
  ⟨rfl, fun h => Except.noConfusion h⟩

/-- C1 (amended): for every input line that tokenizes into 6 numeric
tokens, parsing fails with `ParseError::ColorOutOfRange` iff one of the
three components r, g, b exceeds 255; the alpha token is not range-checked
and is truncated modulo 256 in the constructed command. -/
theorem c1_amended_color_check (line : List Char) (x y r g b a : Nat)
    (h : collectParse (splitOnSpace line) = some [x, y, r, g, b, a]) :
    (255 < r ∨ 255 < g ∨ 255 < b →
      tryFrom line = Except.error ParseError.ColorOutOfRange)
    ∧ (r ≤ 255 → g ≤ 255 → b ≤ 255 →
        tryFrom line = Except.ok { x := x, y := y, r := r, g := g, b := b, a := a % 256 }) := by
  unfold tryFrom
  rw [h]
  simp only [List.length_cons, List.length_nil]
  rw [if_neg (by norm_num)]
  simp only [List.getD_cons_succ, List.getD_cons_zero]
  constructor
  · intro hc
    rw [if_pos hc]
  · intro hr hg hb
    rw [if_neg (by omega)]
    simp

/-- C1 (witness for the amended theorem): at the 6-token lines
"0 0 999 0 0 7" (g-component 999 > 255) and "0 0 0 0 0 256" (alpha token
256), the amended theorem yields `ColorOutOfRange` and a successful parse
with truncated alpha respectively. -/
theorem c1_amended_color_check_witness :
    tryFrom ("0 0 999 0 0 7".toList) = Except.error ParseError.ColorOutOfRange
    ∧ tryFrom ("0 0 0 0 0 256".toList)
        = Except.ok { x := 0, y := 0, r := 0, g := 0, b := 0, a := 256 % 256 } :=
  ⟨(c1_amended_color_check ("0 0 999 0 0 7".toList) 0 0 999 0 0 7 rfl).1
      (by norm_num),
   (c1_amended_color_check ("0 0 0 0 0 256".toList) 0 0 0 0 0 256 rfl).2
      (by norm_num) (by norm_num) (by norm_num)⟩

/-- C9: (1) if any token of the line fails the non-negative integer parse
(`u32::from_str`), the whole line fails with `ParseError::Malformed` —
this takes priority over the arity check because the `collect` runs first;
(2) if every token parses but the token count is neither 5 nor 6, parsing
fails with `ParseError::ArityMismatch`; (3) on any parse failure the
message-loop iteration discards the line: the filesystem (hence the
canvas) is untouched and the loop moves on. -/
theorem c9_parse_error_handling (line : List Char) :
    ((∃ t ∈ splitOnSpace line, parseU32 t = none) →
      tryFrom line = Except.error ParseError.Malformed)
    ∧ (∀ vs : List Nat, collectParse (splitOnSpace line) = some vs →
        (splitOnSpace line).length ≠ 5 → (splitOnSpace line).length ≠ 6 →
        tryFrom line = Except.error ParseError.ArityMismatch)
    ∧ (∀ e : ParseError, tryFrom line = Except.error e →
        ∀ (α : Type) (decode : α → Option Img) (encode : Img → α)
          (canvasPath tmpPath : String) (width height : Nat)
          (saveOk renameOk : Bool) (tmpJunk : Option α) (fs : String → Option α),
          processLine decode encode canvasPath tmpPath width height saveOk renameOk
            tmpJunk line fs = (Outcome.next none, [fs])) := by
  refine ⟨?_, ?_, ?_⟩
  · intro h
    unfold tryFrom
    rw [collectParse_none_of_bad_token _ h]
  · intro vs hvs h5 h6
    have hlen : vs.length = (splitOnSpace line).length := collectParse_length _ _ hvs
    unfold tryFrom
    simp only [hvs]
    rw [if_pos (by omega)]
  · intro e he α decode encode canvasPath tmpPath width height saveOk renameOk tmpJunk fs
    unfold processLine
    rw [he]

/-- C9 (witness): "12 bad 1 2 3" has a non-numeric token and fails with
`Malformed`; "1 2 3 4" has 4 numeric tokens and fails with
`ArityMismatch`; processing the malformed line leaves the (concrete)
filesystem untouched and continues the loop. -/
theorem c9_parse_error_handling_witness :
    tryFrom ("12 bad 1 2 3".toList) = Except.error ParseError.Malformed
    ∧ tryFrom ("1 2 3 4".toList) = Except.error ParseError.ArityMismatch
    ∧ processLine (fun _ : Nat => (none : Option Img)) (fun _ => 0) "canvas.png" "tmp.png"
        10 10 true true none ("12 bad 1 2 3".toList) (fun _ => some 7)
        = (Outcome.next none, [fun _ => some 7]) :=
  ⟨(c9_parse_error_handling ("12 bad 1 2 3".toList)).1
      ⟨"bad".toList, by decide, rfl⟩,
   (c9_parse_error_handling ("1 2 3 4".toList)).2.1 [1, 2, 3, 4] rfl
      (by decide) (by decide),
   (c9_parse_error_handling ("12 bad 1 2 3".toList)).2.2 ParseError.Malformed
      ((c9_parse_error_handling ("12 bad 1 2 3".toList)).1 ⟨"bad".toList, by decide, rfl⟩)
      Nat (fun _ => none) (fun _ => 0) "canvas.png" "tmp.png" 10 10 true true none
      (fun _ => some 7)⟩

/-- C10: tokenization splits on the single ASCII space character only, so
a line with two consecutive spaces, a leading space, or a trailing space
produces an empty token, and a line with a tab produces a token containing
the tab; in every such case the token fails the integer parse and the
whole line is rejected with `Malformed`. -/
theorem c10_single_space_tokenization (line : List Char)
    (h : (∃ l1 l2, line = l1 ++ ' ' :: ' ' :: l2)
      ∨ (∃ l2, line = ' ' :: l2)
      ∨ (∃ l1, line = l1 ++ [' '])
      ∨ '\t' ∈ line) :
    tryFrom line = Except.error ParseError.Malformed := by
  rcases h with ⟨l1, l2, rfl⟩ | ⟨l2, rfl⟩ | ⟨l1, rfl⟩ | h
  · exact tryFrom_malformed_of_empty_token _
      (List.mem_of_mem_tail (nil_mem_tail_splitOnSpace_double l1 l2))
  · exact tryFrom_malformed_of_empty_token _ (nil_mem_splitOnSpace_leading l2)
  · exact tryFrom_malformed_of_empty_token _
      (List.mem_of_mem_tail (nil_mem_tail_splitOnSpace_trailing l1))
  · exact tryFrom_malformed_of_tab _ h

/-- C10 (witness): the double-space line "1  2 3 4 5" — which would have
5 numeric tokens under any-whitespace splitting — is rejected with
`Malformed` because the empty token between the two spaces fails the
integer parse. -/
theorem c10_single_space_tokenization_witness :
    tryFrom ("1  2 3 4 5".toList) = Except.error ParseError.Malformed :=
  c10_single_space_tokenization ("1  2 3 4 5".toList)
    (Or.inl ⟨"1".toList, "2 3 4 5".toList, rfl⟩)

/-- C7 (counterexample): the space-joined rendering of the 5 decimal
integers 4294967296 (= 2^32), 0, 0, 0, 0 has all color fields in [0,255],
yet parsing fails (`u32::from_str` overflows on the x token), refuting
"no restriction on the magnitude of x and y at parse time". -/
theorem c7_overflow_counterexample :
    joinSpace [renderNat 4294967296, renderNat 0, renderNat 0, renderNat 0, renderNat 0]
      = "4294967296 0 0 0 0".toList
    ∧ tryFrom ("4294967296 0 0 0 0".toList) = Except.error ParseError.Malformed :=
  ⟨by decide, rfl⟩

/-- C7 (amended): for every space-joined sequence of 5 or 6 decimal
integers whose color fields are in [0,255] and whose x and y fit in an
unsigned 32-bit integer (the only magnitude restriction, coming from
`parse::<u32>()`, not from canvas bounds), parsing succeeds and the
resulting command round-trips the values, with a = 255 when only 5 tokens
were supplied. -/
theorem c7_amended_roundtrip (x y r g b a : Nat) (hx : x < 2 ^ 32) (hy : y < 2 ^ 32)
    (hr : r ≤ 255) (hg : g ≤ 255) (hb : b ≤ 255) (ha : a ≤ 255) :
    tryFrom (joinSpace [renderNat x, renderNat y, renderNat r, renderNat g, renderNat b])
      = Except.ok { x := x, y := y, r := r, g := g, b := b, a := 255 }
    ∧ tryFrom (joinSpace [renderNat x, renderNat y, renderNat r, renderNat g,
        renderNat b, renderNat a])
      = Except.ok { x := x, y := y, r := r, g := g, b := b, a := a } := by
  constructor
  · have hsplit := splitOnSpace_joinSpace ([x, y, r, g, b].map renderNat) (by simp)
      (by intro t ht
          simp only [List.mem_map] at ht
          obtain ⟨v, _, rfl⟩ := ht
          exact space_not_mem_renderNat v)
    have hcoll := collectParse_renderNat [x, y, r, g, b]
      (by intro v hv
          simp only [List.mem_cons, List.not_mem_nil, or_false] at hv
          rcases hv with rfl | rfl | rfl | rfl | rfl <;> omega)
    simp only [List.map_cons, List.map_nil] at hsplit hcoll
    unfold tryFrom
    rw [hsplit]
    simp only [hcoll]
    rw [if_neg (by norm_num)]
    rw [if_neg (by simp only [List.getD_cons_succ, List.getD_cons_zero]; omega)]
    simp [List.getD_cons_succ, List.getD_cons_zero]
  · have hsplit := splitOnSpace_joinSpace ([x, y, r, g, b, a].map renderNat) (by simp)
      (by intro t ht
          simp only [List.mem_map] at ht
          obtain ⟨v, _, rfl⟩ := ht
          exact space_not_mem_renderNat v)
    have hcoll := collectParse_renderNat [x, y, r, g, b, a]
      (by intro v hv
          simp only [List.mem_cons, List.not_mem_nil, or_false] at hv
          rcases hv with rfl | rfl | rfl | rfl | rfl | rfl <;> omega)
    simp only [List.map_cons, List.map_nil] at hsplit hcoll
    unfold tryFrom
    rw [hsplit]
    simp only [hcoll]
    rw [if_neg (by norm_num)]
    rw [if_neg (by simp only [List.getD_cons_succ, List.getD_cons_zero]; omega)]
    simp only [List.getD_cons_succ, List.getD_cons_zero, List.length_cons,
      List.length_nil, Except.ok.injEq]
    have : a % 256 = a := Nat.mod_eq_of_lt (by omega)
    simp [this]

/-- C7 (witness for the amended theorem): the renderings of `3 4 255 0 0`
and `3 4 255 0 0 128` parse and round-trip, with implied alpha 255 in the
5-token case. -/
theorem c7_amended_roundtrip_witness :
    tryFrom (joinSpace [renderNat 3, renderNat 4, renderNat 255, renderNat 0, renderNat 0])
      = Except.ok { x := 3, y := 4, r := 255, g := 0, b := 0, a := 255 }
    ∧ tryFrom (joinSpace [renderNat 3, renderNat 4, renderNat 255, renderNat 0,
        renderNat 0, renderNat 128])
      = Except.ok { x := 3, y := 4, r := 255, g := 0, b := 0, a := 128 } :=
  ⟨(c7_amended_roundtrip 3 4 255 0 0 128 (by norm_num) (by norm_num) (by norm_num)
      (by norm_num) (by norm_num) (by norm_num)).1,
   (c7_amended_roundtrip 3 4 255 0 0 128 (by norm_num) (by norm_num) (by norm_num)
      (by norm_num) (by norm_num) (by norm_num)).2⟩

theorem fsUpdate_same {α : Type} (fs : String → Option α) (p : String) (v : Option α) :
    fsUpdate fs p v p = v := by simp [fsUpdate]

theorem fsUpdate_other {α : Type} (fs : String → Option α) (p q : String) (v : Option α)
    (h : q ≠ p) : fsUpdate fs p v q = fs q := by simp [fsUpdate, h]

/-- C4: a validated command whose coordinates are out of bounds
(`command.x >= width || command.y >= height`) makes the whole cycle a
silent no-op: the outcome is a plain `continue` with no error and the
filesystem state list is just the unchanged initial state, so the canvas
file is byte-for-byte untouched. -/
theorem c4_out_of_bounds_noop {α : Type} (decode : α → Option Img) (encode : Img → α)
    (canvasPath tmpPath : String) (width height : Nat) (saveOk renameOk : Bool)
    (tmpJunk : Option α) (cmd : Command) (fs : String → Option α)
    (h : width ≤ cmd.x ∨ height ≤ cmd.y) :
    updateCycle decode encode canvasPath tmpPath width height saveOk renameOk tmpJunk cmd fs
      = (Outcome.next none, [fs]) := by
  unfold updateCycle
  rw [if_pos h]

/-- C4 (witness): the spec's scenario — command `12 4 255 0 0` on a 10×10
canvas — is silently dropped with the filesystem unchanged. -/
theorem c4_out_of_bounds_noop_witness :
    updateCycle (fun _ : Nat => (none : Option Img)) (fun _ => 0) "canvas.png" "tmp.png"
      10 10 true true none { x := 12, y := 4, r := 255, g := 0, b := 0, a := 255 }
      (fun _ => some 3)
      = (Outcome.next none, [fun _ => some 3]) :=
  c4_out_of_bounds_noop _ _ _ _ _ _ _ _ _ _ _ (Or.inl (by norm_num))

/-- C3: in every intermediate filesystem state of an update cycle, the
content at the canvas path is either the original complete image file or
the complete encoding of the updated image: the mutated image goes to the
temp file first and reaches the canvas path only through the rename, so a
reader never sees a partially written canvas. -/
theorem c3_atomic_publish {α : Type} (decode : α → Option Img) (encode : Img → α)
    (canvasPath tmpPath : String) (width height : Nat) (saveOk renameOk : Bool)
    (tmpJunk : Option α) (cmd : Command) (fs : String → Option α)
    (c0 : α) (img : Img)
    (hfs : fs canvasPath = some c0) (hdec : decode c0 = some img)
    (hpath : tmpPath ≠ canvasPath) :
    ∀ s ∈ (updateCycle decode encode canvasPath tmpPath width height saveOk renameOk
        tmpJunk cmd fs).2,
      s canvasPath = some c0 ∨ s canvasPath = some (encode (applyCommand img cmd)) := by
  have hload : (fs canvasPath).bind decode = some img := by rw [hfs]; exact hdec
  unfold updateCycle
  by_cases hb : width ≤ cmd.x ∨ height ≤ cmd.y
  · rw [if_pos hb]
    intro s hs
    simp only [List.mem_singleton] at hs
    subst hs
    exact Or.inl hfs
  · rw [if_neg hb]
    simp only [hload]
    cases saveOk
    · simp only [Bool.false_eq_true, if_false]
      intro s hs
      simp only [List.mem_cons, List.not_mem_nil, or_false] at hs
      rcases hs with rfl | rfl
      · exact Or.inl hfs
      · rw [fsUpdate_other fs tmpPath canvasPath tmpJunk (Ne.symm hpath)]
        exact Or.inl hfs
    · simp only [if_true]
      cases renameOk
      · simp only [Bool.false_eq_true, if_false]
        intro s hs
        simp only [List.mem_cons, List.not_mem_nil, or_false] at hs
        rcases hs with rfl | rfl
        · exact Or.inl hfs
        · rw [fsUpdate_other fs tmpPath canvasPath _ (Ne.symm hpath)]
          exact Or.inl hfs
      · simp only [if_true]
        intro s hs
        simp only [List.mem_cons, List.not_mem_nil, or_false] at hs
        rcases hs with rfl | rfl | rfl
        · exact Or.inl hfs
        · rw [fsUpdate_other fs tmpPath canvasPath _ (Ne.symm hpath)]
          exact Or.inl hfs
        · rw [fsUpdate_other _ tmpPath canvasPath _ (Ne.symm hpath),
            fsUpdate_same, fsUpdate_same]
          exact Or.inr rfl

/-- A concrete 10×10 all-black opaque image used by witnesses. -/
def imgW : Img :=
  { width := 10, height := 10, pix := fun _ _ => { r := 0, g := 0, b := 0, a := 255 } }

/-- The command of the spec's scenario `3 4 255 0 0`, used by witnesses. -/
def cmdW : Command := { x := 3, y := 4, r := 255, g := 0, b := 0, a := 255 }

theorem list_getD_mem {α : Type} (l : List α) (n : Nat) (d : α) (h : n < l.length) :
    l.getD n d ∈ l := by
  rw [List.getD_eq_getElem l d h]
  exact List.getElem_mem h

/-- C3 (witness): in a concrete successful cycle (content type `Nat`,
canvas file content `0` decoding to `imgW`, encode constant `1`), the
middle intermediate state (after the temp write) and the final state
(after the rename) each hold either the old or the new content at the
canvas path. -/
theorem c3_atomic_publish_witness :
    (((updateCycle (fun _ : Nat => some imgW) (fun _ => 1) "canvas.png" "tmp.png"
        10 10 true true none cmdW (fun _ => some 0)).2.getD 1 (fun _ => none)) "canvas.png"
          = some 0
      ∨ ((updateCycle (fun _ : Nat => some imgW) (fun _ => 1) "canvas.png" "tmp.png"
        10 10 true true none cmdW (fun _ => some 0)).2.getD 1 (fun _ => none)) "canvas.png"
          = some ((fun _ : Img => 1) (applyCommand imgW cmdW)))
    ∧ (((updateCycle (fun _ : Nat => some imgW) (fun _ => 1) "canvas.png" "tmp.png"
        10 10 true true none cmdW (fun _ => some 0)).2.getD 2 (fun _ => none)) "canvas.png"
          = some 0
      ∨ ((updateCycle (fun _ : Nat => some imgW) (fun _ => 1) "canvas.png" "tmp.png"
        10 10 true true none cmdW (fun _ => some 0)).2.getD 2 (fun _ => none)) "canvas.png"
          = some ((fun _ : Img => 1) (applyCommand imgW cmdW))) :=
  ⟨c3_atomic_publish (fun _ => some imgW) (fun _ => 1) "canvas.png" "tmp.png"
      10 10 true true none cmdW (fun _ => some 0) 0 imgW rfl rfl (by decide) _
      (list_getD_mem _ 1 _ (by decide)),
   c3_atomic_publish (fun _ => some imgW) (fun _ => 1) "canvas.png" "tmp.png"
      10 10 true true none cmdW (fun _ => some 0) 0 imgW rfl rfl (by decide) _
      (list_getD_mem _ 2 _ (by decide))⟩

/-- C8: if the command is in bounds, the canvas file loads, and the encode
of the mutated buffer to the temp file fails, then the cycle aborts
non-fatally with the spec's `EncodeFailed` classification and every
filesystem state of the cycle (in particular the final one) holds the
original content at the canvas path. -/
theorem c8_encode_failure_preserves_canvas {α : Type} (decode : α → Option Img)
    (encode : Img → α) (canvasPath tmpPath : String) (width height : Nat)
    (renameOk : Bool) (tmpJunk : Option α) (cmd : Command) (fs : String → Option α)
    (img : Img) (hx : cmd.x < width) (hy : cmd.y < height)
    (himg : (fs canvasPath).bind decode = some img) (hpath : tmpPath ≠ canvasPath) :
    (updateCycle decode encode canvasPath tmpPath width height false renameOk
        tmpJunk cmd fs).1 = Outcome.next (some UpdateError.EncodeFailed)
    ∧ ∀ s ∈ (updateCycle decode encode canvasPath tmpPath width height false renameOk
        tmpJunk cmd fs).2, s canvasPath = fs canvasPath := by
  unfold updateCycle
  rw [if_neg (by omega)]
  simp only [himg, Bool.false_eq_true, if_false]
  refine ⟨by simp, ?_⟩
  intro s hs
  simp only [List.mem_cons, List.not_mem_nil, or_false] at hs
  rcases hs with rfl | rfl
  · rfl
  · exact fsUpdate_other fs tmpPath canvasPath tmpJunk (Ne.symm hpath)

/-- C8 (witness): a concrete in-bounds cycle whose save step fails aborts
with `EncodeFailed` and leaves the canvas file content (`some 0`)
unchanged in every state. -/
theorem c8_encode_failure_preserves_canvas_witness :
    (updateCycle (fun _ : Nat => some imgW) (fun _ => 1) "canvas.png" "tmp.png"
        10 10 false true none { x := 3, y := 4, r := 255, g := 0, b := 0, a := 255 }
        (fun _ => some 0)).1 = Outcome.next (some UpdateError.EncodeFailed)
    ∧ ∀ s ∈ (updateCycle (fun _ : Nat => some imgW) (fun _ => 1) "canvas.png" "tmp.png"
        10 10 false true none { x := 3, y := 4, r := 255, g := 0, b := 0, a := 255 }
        (fun _ => some 0)).2,
      s "canvas.png" = (fun _ : String => some 0) "canvas.png" :=
  c8_encode_failure_preserves_canvas (fun _ => some imgW) (fun _ => 1) "canvas.png"
    "tmp.png" 10 10 true none { x := 3, y := 4, r := 255, g := 0, b := 0, a := 255 }
    (fun _ => some 0) imgW (by decide) (by decide) rfl (by decide)

/-- C2 (counterexample): a load failure does not merely abort the cycle —
it panics.  Concretely, with the canvas file absent (`fs` maps every path
to `none`, the "missing file" case of the claim) and an in-bounds command,
the loop body's outcome is `Outcome.panic`: the `.unwrap()` on
`ImageReader::open(..)` kills the spawned task, and `main`'s
`join_handle.await.unwrap()` then terminates the process, so the system
does not resume listening. -/
theorem c2_load_failure_fatal_counterexample :
    (updateCycle (fun _ : Nat => (none : Option Img)) (fun _ => 0) "canvas.png" "tmp.png"
        10 10 true true none { x := 1, y := 1, r := 0, g := 0, b := 0, a := 255 }
        (fun _ => none)).1 = Outcome.panic := rfl

/-- C2 (amended): for an in-bounds command, only the encode-to-temp
failure is non-fatal (the cycle aborts with `EncodeFailed` and the loop
resumes); a load failure (missing file, corrupt data, unsupported format —
any case where open/decode yields nothing) or a rename failure panics and
terminates the process. -/
theorem c2_amended_failure_fatality {α : Type} (decode : α → Option Img) (encode : Img → α)
    (canvasPath tmpPath : String) (width height : Nat) (renameOk : Bool)
    (tmpJunk : Option α) (cmd : Command) (fs : String → Option α)
    (hx : cmd.x < width) (hy : cmd.y < height) :
    ((fs canvasPath).bind decode = none → ∀ saveOk rOk : Bool,
      (updateCycle decode encode canvasPath tmpPath width height saveOk rOk
          tmpJunk cmd fs).1 = Outcome.panic)
    ∧ (∀ img : Img, (fs canvasPath).bind decode = some img →
        (updateCycle decode encode canvasPath tmpPath width height false renameOk
            tmpJunk cmd fs).1 = Outcome.next (some UpdateError.EncodeFailed))
    ∧ (∀ img : Img, (fs canvasPath).bind decode = some img →
        (updateCycle decode encode canvasPath tmpPath width height true false
            tmpJunk cmd fs).1 = Outcome.panic) := by
  refine ⟨?_, ?_, ?_⟩
  · intro hnone saveOk rOk
    unfold updateCycle
    rw [if_neg (by omega)]
    simp only [hnone]
  · intro img himg
    unfold updateCycle
    rw [if_neg (by omega)]
    simp only [himg, Bool.false_eq_true, if_false]
  · intro img himg
    unfold updateCycle
    rw [if_neg (by omega)]
    simp only [himg, if_true, Bool.false_eq_true, if_false]

/-- C2 (witness for the amended theorem): with a concrete in-bounds
command, a missing canvas file panics; with the file present, a failed
save continues with `EncodeFailed` and a failed rename panics. -/
theorem c2_amended_failure_fatality_witness :
    (updateCycle (fun _ : Nat => some imgW) (fun _ => 1) "canvas.png" "tmp.png"
        10 10 true true none { x := 1, y := 2, r := 3, g := 4, b := 5, a := 255 }
        (fun _ => none)).1 = Outcome.panic
    ∧ (updateCycle (fun _ : Nat => some imgW) (fun _ => 1) "canvas.png" "tmp.png"
        10 10 false true none { x := 1, y := 2, r := 3, g := 4, b := 5, a := 255 }
        (fun _ => some 0)).1 = Outcome.next (some UpdateError.EncodeFailed)
    ∧ (updateCycle (fun _ : Nat => some imgW) (fun _ => 1) "canvas.png" "tmp.png"
        10 10 true false none { x := 1, y := 2, r := 3, g := 4, b := 5, a := 255 }
        (fun _ => some 0)).1 = Outcome.panic :=
  ⟨(c2_amended_failure_fatality (fun _ : Nat => some imgW) (fun _ => 1) "canvas.png"
      "tmp.png" 10 10 true none { x := 1, y := 2, r := 3, g := 4, b := 5, a := 255 }
      (fun _ => none) (by decide) (by decide)).1 rfl true true,
   (c2_amended_failure_fatality (fun _ : Nat => some imgW) (fun _ => 1) "canvas.png"
      "tmp.png" 10 10 true none { x := 1, y := 2, r := 3, g := 4, b := 5, a := 255 }
      (fun _ => some 0) (by decide) (by decide)).2.1 imgW rfl,
   (c2_amended_failure_fatality (fun _ : Nat => some imgW) (fun _ => 1) "canvas.png"
      "tmp.png" 10 10 true none { x := 1, y := 2, r := 3, g := 4, b := 5, a := 255 }
      (fun _ => some 0) (by decide) (by decide)).2.2 imgW rfl⟩

/-- C5: applying an in-bounds, fully opaque command (`a = 255`) sets the
pixel at `(x, y)` exactly to `(r, g, b, 255)` — the blend degenerates to a
plain overwrite — and every other pixel of the canvas is unchanged. -/
theorem c5_full_alpha_overwrite (img : Img) (cmd : Command)
    (hx : cmd.x < img.width) (hy : cmd.y < img.height) (ha : cmd.a = 255) :
    (applyCommand img cmd).pix cmd.x cmd.y
      = { r := cmd.r, g := cmd.g, b := cmd.b, a := 255 }
    ∧ ∀ i j, ¬(i = cmd.x ∧ j = cmd.y) →
        (applyCommand img cmd).pix i j = img.pix i j := by
  constructor
  · simp only [applyCommand, if_pos (And.intro rfl rfl)]
    exact blend_alpha255 _ _ ha
  · intro i j hij
    simp only [applyCommand, if_neg hij]

/-- C5 (witness): on the all-black opaque 10×10 canvas `imgW`, the command
`3 4 255 0 0` (alpha 255) makes pixel (3,4) opaque red and leaves pixel
(0,0) unchanged. -/
theorem c5_full_alpha_overwrite_witness :
    (applyCommand imgW { x := 3, y := 4, r := 255, g := 0, b := 0, a := 255 }).pix 3 4
      = { r := 255, g := 0, b := 0, a := 255 }
    ∧ (applyCommand imgW { x := 3, y := 4, r := 255, g := 0, b := 0, a := 255 }).pix 0 0
      = imgW.pix 0 0 :=
  ⟨(c5_full_alpha_overwrite imgW { x := 3, y := 4, r := 255, g := 0, b := 0, a := 255 }
      (by decide) (by decide) rfl).1,
   (c5_full_alpha_overwrite imgW { x := 3, y := 4, r := 255, g := 0, b := 0, a := 255 }
      (by decide) (by decide) rfl).2 0 0 (by simp)⟩

/-- C6: applying an in-bounds, fully transparent command (`a = 0`) leaves
the destination pixel's RGB components unchanged (in fact the blend leaves
the whole pixel unchanged: with zero source alpha the final alpha equals
the destination alpha, and each channel reduces to the destination
channel). -/
theorem c6_zero_alpha_identity (img : Img) (cmd : Command)
    (hx : cmd.x < img.width) (hy : cmd.y < img.height) (ha : cmd.a = 0) :
    ((applyCommand img cmd).pix cmd.x cmd.y).r = (img.pix cmd.x cmd.y).r
    ∧ ((applyCommand img cmd).pix cmd.x cmd.y).g = (img.pix cmd.x cmd.y).g
    ∧ ((applyCommand img cmd).pix cmd.x cmd.y).b = (img.pix cmd.x cmd.y).b := by
  have h := blend_alpha0 (img.pix cmd.x cmd.y)
    { r := cmd.r, g := cmd.g, b := cmd.b, a := cmd.a } ha
  simp only [applyCommand, if_pos (And.intro rfl rfl)]
  rw [h]
  exact ⟨rfl, rfl, rfl⟩

/-- A concrete 10×10 image whose every pixel is (7,8,9,100), used by the
C6 witness. -/
def imgT : Img :=
  { width := 10, height := 10, pix := fun _ _ => { r := 7, g := 8, b := 9, a := 100 } }

/-- C6 (witness): on a 10×10 canvas whose pixel (3,4) is (7,8,9,100), the
fully transparent command `3 4 255 0 0 0` leaves that pixel's RGB
unchanged. -/
theorem c6_zero_alpha_identity_witness :
    ((applyCommand imgT { x := 3, y := 4, r := 255, g := 0, b := 0, a := 0 }).pix 3 4).r
      = (imgT.pix 3 4).r
    ∧ ((applyCommand imgT { x := 3, y := 4, r := 255, g := 0, b := 0, a := 0 }).pix 3 4).g
      = (imgT.pix 3 4).g
    ∧ ((applyCommand imgT { x := 3, y := 4, r := 255, g := 0, b := 0, a := 0 }).pix 3 4).b
      = (imgT.pix 3 4).b :=
  c6_zero_alpha_identity imgT { x := 3, y := 4, r := 255, g := 0, b := 0, a := 0 }
    (by decide) (by decide) rfl
